import Mathlib

/-!
Verification of the Monkey deterministic password generator (`src/monkey.py`).

The development shallowly embeds the derivation engine
`generate_monkey_password` into Lean: Python strings become `String` /
`List Char`, Python non-negative ints become `Nat`, and the three runtime
failures the function can exhibit (`ValueError` for an empty active-alphabet
set, `AttributeError` from the nonexistent `str.repeat` in the dynamic
keystream-extension branches, and `ZeroDivisionError` from `pos_val %
desired_length` at length 0) become an explicit `Except` error type.
SHA-256 (from Python's `hashlib`, used via `.hexdigest()`) is implemented
in full so that every definition is executable on concrete inputs.
-/

namespace Monkey

/-! ## SHA-256 (model of `hashlib.sha256(...).hexdigest()`)

Words are `Nat` values kept below `2 ^ 32` by explicit reduction `% M32`.
Bytes are `Nat` values below 256.
-/

/-- The word modulus `2 ^ 32` for SHA-256 arithmetic. -/
def M32 : Nat := 4294967296

/-- Right rotation of a 32-bit word. -/
def rotr (x n : Nat) : Nat := ((x >>> n) ||| (x <<< (32 - n))) % M32

/-- SHA-256 `Ch` function: `(x AND y) XOR ((NOT x) AND z)` on 32-bit words. -/
def shaCh (x y z : Nat) : Nat := (x &&& y) ^^^ ((x ^^^ (M32 - 1)) &&& z)

/-- SHA-256 `Maj` function. -/
def shaMaj (x y z : Nat) : Nat := (x &&& y) ^^^ (x &&& z) ^^^ (y &&& z)

/-- SHA-256 big sigma 0. -/
def bigSigma0 (x : Nat) : Nat := rotr x 2 ^^^ rotr x 13 ^^^ rotr x 22

/-- SHA-256 big sigma 1. -/
def bigSigma1 (x : Nat) : Nat := rotr x 6 ^^^ rotr x 11 ^^^ rotr x 25

/-- SHA-256 small sigma 0. -/
def smallSigma0 (x : Nat) : Nat := rotr x 7 ^^^ rotr x 18 ^^^ (x >>> 3)

/-- SHA-256 small sigma 1. -/
def smallSigma1 (x : Nat) : Nat := rotr x 17 ^^^ rotr x 19 ^^^ (x >>> 10)

/-- The 64 SHA-256 round constants. -/
def sha256K : List Nat :=
  [1116352408, 1899447441, 3049323471, 3921009573,
   961987163, 1508970993, 2453635748, 2870763221,
   3624381080, 310598401, 607225278, 1426881987,
   1925078388, 2162078206, 2614888103, 3248222580,
   3835390401, 4022224774, 264347078, 604807628,
   770255983, 1249150122, 1555081692, 1996064986,
   2554220882, 2821834349, 2952996808, 3210313671,
   3336571891, 3584528711, 113926993, 338241895,
   666307205, 773529912, 1294757372, 1396182291,
   1695183700, 1986661051, 2177026350, 2456956037,
   2730485921, 2820302411, 3259730800, 3345764771,
   3516065817, 3600352804, 4094571909, 275423344,
   430227734, 506948616, 659060556, 883997877,
   958139571, 1322822218, 1537002063, 1747873779,
   1955562222, 2024104815, 2227730452, 2361852424,
   2428436474, 2756734187, 3204031479, 3329325298]

/-- The eight-word SHA-256 internal state. -/
structure Hash8 where
  a : Nat
  b : Nat
  c : Nat
  d : Nat
  e : Nat
  f : Nat
  g : Nat
  h : Nat
deriving Repr, DecidableEq

/-- The SHA-256 initial hash value. -/
def shaH0 : Hash8 :=
  ⟨1779033703, 3144134277, 1013904242, 2773480762,
   1359893119, 2600822924, 528734635, 1541459225⟩

/-- One SHA-256 compression round, consuming one `(k, w)` pair. -/
def compressStep (st : Hash8) (kw : Nat × Nat) : Hash8 :=
  let t1 := (st.h + bigSigma1 st.e + shaCh st.e st.f st.g + kw.1 + kw.2) % M32
  let t2 := (bigSigma0 st.a + shaMaj st.a st.b st.c) % M32
  ⟨(t1 + t2) % M32, st.a, st.b, st.c, (st.d + t1) % M32, st.e, st.f, st.g⟩

/-- UTF-8 encoding of one character (model of Python's `str.encode()` per
code point). -/
def utf8Bytes (c : Char) : List Nat :=
  let n := c.toNat
  if n < 128 then [n]
  else if n < 2048 then [192 + n / 64, 128 + n % 64]
  else if n < 65536 then [224 + n / 4096, 128 + (n / 64) % 64, 128 + n % 64]
  else [240 + n / 262144, 128 + (n / 4096) % 64, 128 + (n / 64) % 64, 128 + n % 64]

/-- UTF-8 byte sequence of a string. -/
def strBytes (s : String) : List Nat := (s.data.map utf8Bytes).flatten

/-- SHA-256 message padding: `0x80`, zeros to 56 mod 64, then the bit length
as 8 big-endian bytes. -/
def padBytes (msg : List Nat) : List Nat :=
  let bitLen := msg.length * 8
  let zeros := (120 - ((msg.length + 1) % 64)) % 64
  msg ++ [128] ++ List.replicate zeros 0 ++
    (List.range 8).map (fun i => (bitLen >>> ((7 - i) * 8)) % 256)

/-- The sixteen 32-bit big-endian message words of one 64-byte block. -/
def blockWords (block : List Nat) : List Nat :=
  (List.range 16).map (fun j =>
    block.getD (4 * j) 0 * 16777216 + block.getD (4 * j + 1) 0 * 65536 +
      block.getD (4 * j + 2) 0 * 256 + block.getD (4 * j + 3) 0)

/-- Message-schedule extension: appends `t` further words to `w`. -/
def extendWords : Nat → List Nat → List Nat
  | 0, w => w
  | t + 1, w =>
    let i := w.length
    let nw := (smallSigma1 (w.getD (i - 2) 0) + w.getD (i - 7) 0 +
      smallSigma0 (w.getD (i - 15) 0) + w.getD (i - 16) 0) % M32
    extendWords t (w ++ [nw])

/-- Processes one 64-byte block: 48 schedule extensions, 64 compression
rounds, and the feed-forward addition. -/
def processBlock (st : Hash8) (block : List Nat) : Hash8 :=
  let w := extendWords 48 (blockWords block)
  let r := (sha256K.zip w).foldl compressStep st
  ⟨(st.a + r.a) % M32, (st.b + r.b) % M32, (st.c + r.c) % M32, (st.d + r.d) % M32,
   (st.e + r.e) % M32, (st.f + r.f) % M32, (st.g + r.g) % M32, (st.h + r.h) % M32⟩

/-- SHA-256 of a byte sequence, as the final eight-word state. -/
def sha256Words (msg : List Nat) : Hash8 :=
  let padded := padBytes msg
  ((List.range (padded.length / 64)).map
    (fun i => (padded.drop (i * 64)).take 64)).foldl processBlock shaH0

/-- Lowercase hexadecimal digit for a value below 16. -/
def hexDigit (n : Nat) : Char := "0123456789abcdef".data.getD n '0'

/-- The eight lowercase hex characters of one 32-bit word, most significant
nibble first. -/
def wordHex (w : Nat) : List Char :=
  (List.range 8).map (fun i => hexDigit ((w >>> ((7 - i) * 4)) % 16))

/-- Lowercase hexadecimal rendering of the final state, 64 characters. -/
def hexdigest (st : Hash8) : List Char :=
  ([st.a, st.b, st.c, st.d, st.e, st.f, st.g, st.h].map wordHex).flatten

/-- Model of `hashlib.sha256(s.encode()).hexdigest()`. -/
def sha256Hex (s : String) : String := String.mk (hexdigest (sha256Words (strBytes s)))

/-! ## The Monkey derivation engine (model of `generate_monkey_password`)

Faithful translation of `src/monkey.py`, lines 209-353.  Strings are
manipulated as `List Char` inside the passes; the four alphabet constants
keep their source names.  The possible runtime failures are made explicit:

* `GenError.noActive`  — the `ValueError` raised when `active_char_sets`
  is empty (line 251);
* `GenError.attrError` — the `AttributeError` that the dynamic
  keystream-extension branches would raise, because they call the
  nonexistent method `base_hash.repeat(2)` (lines 283, 296, 335, 344);
* `GenError.zeroDiv`   — the `ZeroDivisionError` raised by
  `pos_val % desired_length` when `desired_length = 0` (line 341).

The Python buffer is initialised with empty strings (`[''] * desired_length`);
in the model each slot holds the placeholder `' '` instead, which is sound
because Pass 1 assigns every position of the buffer before it is read.
The `verbose` flag only drives `console.print` tracing in the source, so the
model takes it and ignores it.  As ghost instrumentation (absent from the
source and affecting nothing), the Pass-2 fold also records the list of
diversity-injection target positions.
-/

/-- The default symbol alphabet `SYMBOLS_DEFAULT` (line 90). -/
def SYMBOLS_DEFAULT : String := "!@#$%^&*()_-+=[]\x7b\x7d|;:,.<>?/"

/-- `string.ascii_lowercase` (line 91). -/
def LOWERCASE_BASE : String := "abcdefghijklmnopqrstuvwxyz"

/-- `string.ascii_uppercase` (line 92). -/
def UPPERCASE_BASE : String := "ABCDEFGHIJKLMNOPQRSTUVWXYZ"

/-- `string.digits` (line 93). -/
def NUMBERS_BASE : String := "0123456789"

/-- Value of a hexadecimal digit, modelling `int(c, 16)` at the call sites
where `c` is a single character of the hex keystream (the keystream only
ever contains `0`-`9`, `a`-`f`; other characters, on which Python would
raise, are mapped to 0). -/
def hexVal (c : Char) : Nat :=
  if '0' ≤ c ∧ c ≤ '9' then c.toNat - '0'.toNat
  else if 'a' ≤ c ∧ c ≤ 'f' then c.toNat - 'a'.toNat + 10
  else if 'A' ≤ c ∧ c ≤ 'F' then c.toNat - 'A'.toNat + 10
  else 0

/-- Model of Python's `str.isupper` on a single character, on the ASCII
range (the repository's own alphabets are ASCII). -/
def pyIsUpper (c : Char) : Bool := decide ('A' ≤ c ∧ c ≤ 'Z')

/-- Model of Python's `str.islower` on a single character, on the ASCII
range. -/
def pyIsLower (c : Char) : Bool := decide ('a' ≤ c ∧ c ≤ 'z')

/-- Model of Python's `str.isdigit` on a single character, on the ASCII
range. -/
def pyIsDigit (c : Char) : Bool := decide ('0' ≤ c ∧ c ≤ '9')

/-- The runtime failures `generate_monkey_password` can exhibit. -/
inductive GenError where
  | noActive
  | attrError
  | zeroDiv
deriving Repr, DecidableEq

/-- `symbols_to_use = custom_symbols_set if custom_symbols_set else
SYMBOLS_DEFAULT` (line 236): an empty custom set falls back to the default
symbols. -/
def symbolsToUse (customSymbolsSet : String) : String :=
  if customSymbolsSet = "" then SYMBOLS_DEFAULT else customSymbolsSet

/-- `active_char_sets` (lines 239-247): the active alphabets in the fixed
precedence order Upper, Lower, Numbers, Symbols, each guarded by its
include flag and by non-emptiness of its resolved alphabet. -/
def activeCharSets (includeUpper includeLower includeNumbers includeSymbols : Bool)
    (customSymbolsSet : String) : List (List Char) :=
  (if includeUpper ∧ UPPERCASE_BASE ≠ "" then [UPPERCASE_BASE.data] else []) ++
  (if includeLower ∧ LOWERCASE_BASE ≠ "" then [LOWERCASE_BASE.data] else []) ++
  (if includeNumbers ∧ NUMBERS_BASE ≠ "" then [NUMBERS_BASE.data] else []) ++
  (if includeSymbols ∧ symbolsToUse customSymbolsSet ≠ "" then
    [(symbolsToUse customSymbolsSet).data] else [])

/-- The initial keystream (line 270):
`(base_hash * ((min_hash_needed // len(base_hash)) + 2))[:min_hash_needed + 10]`. -/
def extendedHashInit (baseHash : List Char) (minHashNeeded : Nat) : List Char :=
  (List.replicate (minHashNeeded / baseHash.length + 2) baseHash).flatten.take
    (minHashNeeded + 10)

/-- One iteration of Pass 1 (lines 280-309) for buffer position `i`, on the
state (buffer, keystream cursor).  Reaching either dynamic-extension branch
raises `AttributeError` in the source (`base_hash.repeat(2)`), modelled as
`GenError.attrError`. -/
def pass1Step (activeSets : List (List Char)) (extendedHash : List Char)
    (st : List Char × Nat) (i : Nat) : Except GenError (List Char × Nat) :=
  let buf := st.1
  let idx := st.2
  if idx + 1 ≥ extendedHash.length then .error .attrError else
  let decisionVal := hexVal (extendedHash.getD idx ' ')
  let idx1 := idx + 1
  let targetCharSet := activeSets.getD (decisionVal % activeSets.length) []
  if idx1 + 1 ≥ extendedHash.length then .error .attrError else
  let charSelectVal := hexVal (extendedHash.getD idx1 ' ')
  let idx2 := idx1 + 1
  if targetCharSet ≠ [] then
    .ok (buf.set i (targetCharSet.getD (charSelectVal % targetCharSet.length) '?'), idx2)
  else
    match activeSets.find? (fun s => !s.isEmpty) with
    | some fallbackSet =>
      .ok (buf.set i (fallbackSet.getD (charSelectVal % fallbackSet.length) '?'), idx2)
    | none => .ok (buf.set i '?', idx2)

/-- Pass 1 (lines 273-309): the buffer starts as `[''] * desired_length`
(placeholder `' '` here) and the cursor at 0. -/
def pass1Run (activeSets : List (List Char)) (extendedHash : List Char)
    (desiredLength : Nat) : Except GenError (List Char × Nat) :=
  (List.range desiredLength).foldlM (pass1Step activeSets extendedHash)
    (List.replicate desiredLength ' ', 0)

/-- `categories_to_ensure` (lines 316-326): the alphabets of the enabled
classes with no representative in the Pass-1 password, in precedence order.
The symbol check tests membership in `symbols_to_use` itself. -/
def categoriesToEnsure (includeUpper includeLower includeNumbers includeSymbols : Bool)
    (symbolsToUse : List Char) (cur : List Char) : List (List Char) :=
  (if includeUpper ∧ ¬cur.any pyIsUpper ∧ UPPERCASE_BASE ≠ "" then
    [UPPERCASE_BASE.data] else []) ++
  (if includeLower ∧ ¬cur.any pyIsLower ∧ LOWERCASE_BASE ≠ "" then
    [LOWERCASE_BASE.data] else []) ++
  (if includeNumbers ∧ ¬cur.any pyIsDigit ∧ NUMBERS_BASE ≠ "" then
    [NUMBERS_BASE.data] else []) ++
  (if includeSymbols ∧ ¬cur.any (fun c => symbolsToUse.contains c) ∧ symbolsToUse ≠ [] then
    [symbolsToUse] else [])

/-- One Pass-2 diversity injection (lines 330-351) for one missing alphabet,
on the state (buffer, cursor, ghost list of injection positions).  Note the
source reads the keystream at `idx % len(extended_hash)` in this pass, and
computes `pos_val % desired_length`, which raises `ZeroDivisionError` when
`desired_length = 0`. -/
def pass2Step (extendedHash : List Char) (desiredLength : Nat)
    (st : List Char × Nat × List Nat) (charSet : List Char) :
    Except GenError (List Char × Nat × List Nat) :=
  let buf := st.1
  let idx := st.2.1
  let positions := st.2.2
  if charSet = [] then .ok (buf, idx, positions) else
  if idx + 1 ≥ extendedHash.length then .error .attrError else
  let posVal := hexVal (extendedHash.getD (idx % extendedHash.length) ' ')
  let idx1 := idx + 1
  if desiredLength = 0 then .error .zeroDiv else
  let injectionPosition := posVal % desiredLength
  if idx1 + 1 ≥ extendedHash.length then .error .attrError else
  let charVal := hexVal (extendedHash.getD (idx1 % extendedHash.length) ' ')
  let idx2 := idx1 + 1
  let charToInject := charSet.getD (charVal % charSet.length) '?'
  .ok (buf.set injectionPosition charToInject, idx2, positions ++ [injectionPosition])

/-- Pass 2 (lines 311-351), continuing from the Pass-1 cursor. -/
def pass2Run (extendedHash : List Char) (desiredLength : Nat)
    (cats : List (List Char)) (buf : List Char) (idx : Nat) :
    Except GenError (List Char × Nat × List Nat) :=
  cats.foldlM (pass2Step extendedHash desiredLength) (buf, idx, [])

set_option linter.unusedVariables false in
/-- The full engine of `generate_monkey_password` (lines 209-353), returning
the password together with the ghost list of Pass-2 injection positions.
Python's exception flow becomes `Except.bind`: an error in either pass
aborts the call. -/
def generateWithTrace (simplePassword uniqueKey : String) (desiredLength : Nat)
    (includeUpper includeLower includeNumbers includeSymbols : Bool)
    (customSymbolsSet : String) (verbose : Bool) :
    Except GenError (String × List Nat) :=
  let activeSets := activeCharSets includeUpper includeLower includeNumbers
    includeSymbols customSymbolsSet
  if activeSets = [] then .error .noActive else
  let combinedInput := simplePassword ++ uniqueKey
  let baseHash := sha256Hex combinedInput
  let minHashNeeded := desiredLength * 2 + activeSets.length * 2
  let extendedHash := extendedHashInit baseHash.data minHashNeeded
  (pass1Run activeSets extendedHash desiredLength).bind fun r1 =>
    let cats := categoriesToEnsure includeUpper includeLower includeNumbers
      includeSymbols (symbolsToUse customSymbolsSet).data r1.1
    (pass2Run extendedHash desiredLength cats r1.1 r1.2).bind fun r2 =>
      .ok (String.mk r2.1, r2.2.2)

/-- `generate_monkey_password` (lines 209-353): the password alone.  The
`verbose` flag only drives trace printing in the source. -/
def generate_monkey_password (simplePassword uniqueKey : String) (desiredLength : Nat)
    (includeUpper includeLower includeNumbers includeSymbols : Bool)
    (customSymbolsSet : String) (verbose : Bool) : Except GenError String :=
  Except.map Prod.fst (generateWithTrace simplePassword uniqueKey desiredLength
    includeUpper includeLower includeNumbers includeSymbols customSymbolsSet verbose)

/-! ## Basic facts about the embedding -/

theorem data_ne_nil {s : String} (h : s ≠ "") : s.data ≠ [] := by
  intro hd
  apply h
  cases s with
  | mk d => cases hd; rfl

theorem symbolsToUse_ne_empty (c : String) : symbolsToUse c ≠ "" := by
  unfold symbolsToUse
  split
  · decide
  · assumption

theorem hexdigest_length (st : Hash8) : (hexdigest st).length = 64 := by
  simp [hexdigest, wordHex]

theorem sha256Hex_data_length (s : String) : (sha256Hex s).data.length = 64 :=
  hexdigest_length _

/-- Every member of `active_char_sets` is a non-empty alphabet. -/
theorem mem_activeCharSets_ne_nil {iu il inum isym : Bool} {c : String}
    {cs : List Char} (h : cs ∈ activeCharSets iu il inum isym c) : cs ≠ [] := by
  simp only [activeCharSets, List.mem_append] at h
  rcases h with (((h | h) | h) | h) <;> split at h <;>
    simp only [List.mem_singleton, List.not_mem_nil] at h
  · subst h; decide
  · subst h; decide
  · subst h; decide
  · subst h
    rename_i hc
    exact data_ne_nil hc.2

/-- Every member of `categories_to_ensure` is a non-empty alphabet. -/
theorem mem_categoriesToEnsure_ne_nil {iu il inum isym : Bool} {stu cur : List Char}
    {cs : List Char} (h : cs ∈ categoriesToEnsure iu il inum isym stu cur) : cs ≠ [] := by
  simp only [categoriesToEnsure, List.mem_append] at h
  rcases h with (((h | h) | h) | h) <;> split at h <;>
    simp only [List.mem_singleton, List.not_mem_nil] at h
  · subst h; decide
  · subst h; decide
  · subst h; decide
  · subst h
    rename_i hc
    exact hc.2.2

/-- Each missing class counted by `categories_to_ensure` is active, so the
list of classes to repair is never longer than the active list. -/
theorem categoriesToEnsure_length_le (iu il inum isym : Bool) (c : String)
    (cur : List Char) :
    (categoriesToEnsure iu il inum isym (symbolsToUse c).data cur).length ≤
      (activeCharSets iu il inum isym c).length := by
  have step : ∀ (P : Prop) [Decidable P] (Q : Prop) [Decidable Q] (x y : List Char),
      (P → Q) → (if P then [x] else []).length ≤ (if Q then [y] else []).length := by
    intro P _ Q _ x y hPQ
    split
    · rw [if_pos (hPQ (by assumption))]
      exact Nat.le_refl _
    · simp
  simp only [categoriesToEnsure, activeCharSets, List.length_append]
  refine Nat.add_le_add (Nat.add_le_add (Nat.add_le_add ?_ ?_) ?_) ?_
  · exact step _ _ _ _ (fun hp => ⟨hp.1, hp.2.2⟩)
  · exact step _ _ _ _ (fun hp => ⟨hp.1, hp.2.2⟩)
  · exact step _ _ _ _ (fun hp => ⟨hp.1, hp.2.2⟩)
  · exact step _ _ _ _ (fun hp => ⟨hp.1, fun he => hp.2.2 (by rw [he])⟩)

/-- Length of the initial keystream: exactly `min_hash_needed + 10`, because
the chosen repetition count always over-provisions (the base hash has 64
characters). -/
theorem extendedHashInit_length {bh : List Char} (hlen : bh.length = 64) (m : Nat) :
    (extendedHashInit bh m).length = m + 10 := by
  unfold extendedHashInit
  rw [List.length_take, List.length_flatten, List.map_replicate, hlen,
    List.sum_const_nat]
  have hdm := Nat.div_add_mod m 64
  have hm : m % 64 < 64 := Nat.mod_lt _ (by omega)
  omega

/-- Membership in a list after `set`. -/
theorem mem_of_mem_set {α : Type} {l : List α} {i : Nat} {a x : α}
    (h : x ∈ l.set i a) : x ∈ l ∨ x = a := by
  induction l generalizing i with
  | nil => simp at h
  | cons b t ih =>
    cases i with
    | zero =>
      rcases List.mem_cons.1 h with h | h
      · right; exact h
      · left; exact List.mem_cons_of_mem _ h
    | succ j =>
      rcases List.mem_cons.1 h with h | h
      · left; rw [h]; exact List.mem_cons_self _ _
      · rcases ih h with h | h
        · left; exact List.mem_cons_of_mem _ h
        · right; exact h

theorem getD_mem_of_lt {α : Type} {l : List α} {j : Nat} (d : α) (h : j < l.length) :
    l.getD j d ∈ l := by
  rw [List.getD_eq_getElem?_getD, List.getElem?_eq_getElem h]
  exact List.getElem_mem h

theorem getD_set_self {α : Type} {l : List α} {i : Nat} {a d : α} (h : i < l.length) :
    (l.set i a).getD i d = a := by
  rw [List.getD_eq_getElem?_getD, List.getElem?_set_self h]
  rfl

theorem getD_set_ne {α : Type} {l : List α} {i j : Nat} {a d : α} (h : i ≠ j) :
    (l.set i a).getD j d = l.getD j d := by
  rw [List.getD_eq_getElem?_getD, List.getElem?_set_ne h, ← List.getD_eq_getElem?_getD]

theorem ok_bind {ε α β : Type} (a : α) (f : α → Except ε β) :
    (Except.ok a >>= f) = f a := rfl

theorem error_bind {ε α β : Type} (e : ε) (f : α → Except ε β) :
    ((Except.error e : Except ε α) >>= f) = .error e := rfl

theorem pure_eq_ok {ε α : Type} (a : α) : (pure a : Except ε α) = .ok a := rfl

theorem bindE_ok {ε α β : Type} (a : α) (f : α → Except ε β) :
    (Except.ok a : Except ε α).bind f = f a := rfl

theorem bindE_error {ε α β : Type} (e : ε) (f : α → Except ε β) :
    (Except.error e : Except ε α).bind f = .error e := rfl

theorem mapE_ok {ε α β : Type} (f : α → β) (a : α) :
    Except.map f (Except.ok a : Except ε α) = .ok (f a) := rfl

theorem mapE_error {ε α β : Type} (f : α → β) (e : ε) :
    Except.map f (Except.error e : Except ε α) = .error e := rfl

instance {ε α : Type} [DecidableEq ε] [DecidableEq α] : DecidableEq (Except ε α) :=
  fun x y =>
  match x, y with
  | .ok a, .ok b =>
    if h : a = b then .isTrue (by rw [h]) else .isFalse (fun he => h (by injection he))
  | .error e, .error f =>
    if h : e = f then .isTrue (by rw [h]) else .isFalse (fun he => h (by injection he))
  | .ok _, .error _ => .isFalse (fun he => Except.noConfusion he)
  | .error _, .ok _ => .isFalse (fun he => Except.noConfusion he)

/-! ## Pass-level evaluation lemmas

`pass1Step_eval` and `pass2Step_eval` show that, when the cursor is at
least two characters short of the keystream's end, each step succeeds,
advances the cursor by exactly two nibbles, and writes one character of
the relevant alphabet into the buffer; the dynamic-extension branches
(which would raise `AttributeError`) are not taken.
-/

theorem pass1Step_eval (activeSets : List (List Char)) (ext : List Char)
    (hA : activeSets ≠ []) (hAne : ∀ cs ∈ activeSets, cs ≠ [])
    (buf : List Char) (idx i : Nat) (h : idx + 2 < ext.length) :
    ∃ c, pass1Step activeSets ext (buf, idx) i = .ok (buf.set i c, idx + 2) ∧
      ∃ al, al ∈ activeSets ∧ c ∈ al := by
  have hlen : 0 < activeSets.length := List.length_pos.2 hA
  have hmem : activeSets.getD (hexVal (ext.getD idx ' ') % activeSets.length) [] ∈
      activeSets := getD_mem_of_lt _ (Nat.mod_lt _ hlen)
  have hne : activeSets.getD (hexVal (ext.getD idx ' ') % activeSets.length) [] ≠ [] :=
    hAne _ hmem
  have htl : 0 < (activeSets.getD (hexVal (ext.getD idx ' ') % activeSets.length) []).length :=
    List.length_pos.2 hne
  refine ⟨(activeSets.getD (hexVal (ext.getD idx ' ') % activeSets.length) []).getD
      (hexVal (ext.getD (idx + 1) ' ') %
        (activeSets.getD (hexVal (ext.getD idx ' ') % activeSets.length) []).length) '?',
    ?_, activeSets.getD (hexVal (ext.getD idx ' ') % activeSets.length) [], hmem,
    getD_mem_of_lt '?' (Nat.mod_lt _ htl)⟩
  simp only [pass1Step]
  rw [if_neg (by omega), if_neg (by omega), if_pos hne]

theorem pass2Step_eval (ext : List Char) (n : Nat) (hn : 0 < n)
    (buf : List Char) (idx : Nat) (ps : List Nat) (cs : List Char)
    (hcs : cs ≠ []) (h : idx + 2 < ext.length) :
    ∃ p c, pass2Step ext n (buf, idx, ps) cs = .ok (buf.set p c, idx + 2, ps ++ [p]) ∧
      p < n ∧ c ∈ cs := by
  have htl : 0 < cs.length := List.length_pos.2 hcs
  refine ⟨hexVal (ext.getD (idx % ext.length) ' ') % n,
    cs.getD (hexVal (ext.getD ((idx + 1) % ext.length) ' ') % cs.length) '?',
    ?_, Nat.mod_lt _ hn, getD_mem_of_lt '?' (Nat.mod_lt _ htl)⟩
  simp only [pass2Step]
  rw [if_neg (by simp [hcs]), if_neg (by omega), if_neg (by omega), if_neg (by omega)]

/-! ## Master lemmas for the two passes -/

/-- Pass 1 master lemma: with enough keystream the fold succeeds without
reaching an extension branch, advances the cursor to exactly `2 * n`,
preserves the buffer length, and fills every visited position with a
character of some active alphabet. -/
theorem pass1_fold_spec (activeSets : List (List Char)) (ext : List Char)
    (hA : activeSets ≠ []) (hAne : ∀ cs ∈ activeSets, cs ≠ []) :
    ∀ n bufLen : Nat, 2 * n < ext.length → n ≤ bufLen →
      ∃ b : List Char,
        (List.range n).foldlM (pass1Step activeSets ext) (List.replicate bufLen ' ', 0) =
          .ok (b, 2 * n) ∧
        b.length = bufLen ∧
        ∀ j, j < n → ∃ al, al ∈ activeSets ∧ b.getD j ' ' ∈ al := by
  intro n
  induction n with
  | zero =>
    intro bufLen _ _
    exact ⟨List.replicate bufLen ' ', rfl, List.length_replicate _ _,
      fun j hj => absurd hj (by omega)⟩
  | succ m ih =>
    intro bufLen hL hble
    obtain ⟨b, hfold, hblen, hchars⟩ := ih bufLen (by omega) (by omega)
    obtain ⟨c, hstep, al, hal, hcal⟩ :=
      pass1Step_eval activeSets ext hA hAne b (2 * m) m (by omega)
    refine ⟨b.set m c, ?_, by rw [List.length_set]; exact hblen, ?_⟩
    · rw [List.range_succ, List.foldlM_append, hfold, ok_bind, List.foldlM_cons, hstep,
        ok_bind, List.foldlM_nil, pure_eq_ok,
        show 2 * (m + 1) = 2 * m + 2 from by omega]
    · intro j hj
      rcases Nat.lt_succ_iff_lt_or_eq.1 hj with hj | hj
      · obtain ⟨al', hal', hc'⟩ := hchars j hj
        exact ⟨al', hal', by rwa [getD_set_ne (by omega)]⟩
      · subst hj
        exact ⟨al, hal, by rwa [getD_set_self (by omega)]⟩

/-- Specialisation to `pass1Run`: the Pass-1 buffer consists solely of
characters of active alphabets. -/
theorem pass1Run_ok (activeSets : List (List Char)) (ext : List Char) (n : Nat)
    (hA : activeSets ≠ []) (hAne : ∀ cs ∈ activeSets, cs ≠ [])
    (hL : 2 * n < ext.length) :
    ∃ b : List Char, pass1Run activeSets ext n = .ok (b, 2 * n) ∧ b.length = n ∧
      ∀ c ∈ b, ∃ al, al ∈ activeSets ∧ c ∈ al := by
  obtain ⟨b, h1, h2, h3⟩ := pass1_fold_spec activeSets ext hA hAne n n hL (Nat.le_refl n)
  refine ⟨b, h1, h2, fun c hc => ?_⟩
  obtain ⟨j, hj, hcj⟩ := List.mem_iff_getElem.1 hc
  have hthis := h3 j (by omega)
  rwa [List.getD_eq_getElem?_getD, List.getElem?_eq_getElem hj, Option.getD_some, hcj]
    at hthis

/-- Pass 2 master lemma: with all repair alphabets non-empty, a positive
length, and enough keystream, the fold succeeds without reaching an
extension branch, advances the cursor by exactly two nibbles per alphabet,
records one in-range injection position per alphabet, leaves untouched
positions unchanged, writes only characters of the repair alphabets, and —
when no two injections collide — leaves at least one character of every
repair alphabet in the buffer. -/
theorem pass2_fold_spec (ext : List Char) (n : Nat) (hn : 0 < n) :
    ∀ (cats : List (List Char)) (buf : List Char) (idx : Nat) (acc : List Nat),
      (∀ cs ∈ cats, cs ≠ []) → buf.length = n → idx + 2 * cats.length < ext.length →
      ∃ (b : List Char) (ps : List Nat),
        cats.foldlM (pass2Step ext n) (buf, idx, acc) =
          .ok (b, idx + 2 * cats.length, acc ++ ps) ∧
        b.length = n ∧
        ps.length = cats.length ∧
        (∀ p ∈ ps, p < n) ∧
        (∀ q d, q ∉ ps → b.getD q d = buf.getD q d) ∧
        (∀ c ∈ b, c ∈ buf ∨ ∃ cs, cs ∈ cats ∧ c ∈ cs) ∧
        (ps.Nodup → ∀ cs ∈ cats, ∃ c, c ∈ b ∧ c ∈ cs) := by
  intro cats
  induction cats with
  | nil =>
    intro buf idx acc _ hblen _
    refine ⟨buf, [], ?_, hblen, rfl, by simp, fun q d _ => rfl,
      fun c hc => Or.inl hc, by simp⟩
    simp [pure_eq_ok]
  | cons cs rest ih =>
    intro buf idx acc hne hblen hL
    simp only [List.length_cons] at hL
    obtain ⟨p, c, hstep, hpn, hccs⟩ :=
      pass2Step_eval ext n hn buf idx acc cs (hne cs (List.mem_cons_self _ _)) (by omega)
    obtain ⟨b, ps, hfold, hblen2, hpslen, hpsn, huntouched, hcontain, hdiv⟩ :=
      ih (buf.set p c) (idx + 2) (acc ++ [p])
        (fun x hx => hne x (List.mem_cons_of_mem _ hx))
        (by rw [List.length_set]; exact hblen) (by omega)
    refine ⟨b, p :: ps, ?_, hblen2, by simp [hpslen], ?_, ?_, ?_, ?_⟩
    · rw [List.foldlM_cons, hstep, ok_bind, hfold, List.append_assoc,
        List.singleton_append, List.length_cons,
        show idx + 2 * (rest.length + 1) = idx + 2 + 2 * rest.length from by omega]
    · intro p' hp'
      rcases List.mem_cons.1 hp' with hp' | hp'
      · rw [hp']; exact hpn
      · exact hpsn p' hp'
    · intro q d hq
      rw [List.mem_cons, not_or] at hq
      rw [huntouched q d hq.2, getD_set_ne (fun he => hq.1 he.symm)]
    · intro c' hc'
      rcases hcontain c' hc' with hc' | ⟨cs', hcs', hccs'⟩
      · rcases mem_of_mem_set hc' with hc' | hc'
        · exact Or.inl hc'
        · exact Or.inr ⟨cs, List.mem_cons_self _ _, hc' ▸ hccs⟩
      · exact Or.inr ⟨cs', List.mem_cons_of_mem _ hcs', hccs'⟩
    · intro hnd cs' hcs'
      rw [List.nodup_cons] at hnd
      rcases List.mem_cons.1 hcs' with hcs' | hcs'
      · have hbp : b.getD p ' ' = c := by
          rw [huntouched p ' ' hnd.1, getD_set_self (by omega)]
        refine ⟨b.getD p ' ', getD_mem_of_lt ' ' (by omega), ?_⟩
        rw [hbp, hcs']
        exact hccs
      · exact hdiv hnd.2 cs' hcs'

/-! ## Assembling the engine -/

/-- Every repair alphabet is an active alphabet. -/
theorem mem_categoriesToEnsure_mem_active {iu il inum isym : Bool} {c : String}
    {cur al : List Char}
    (h : al ∈ categoriesToEnsure iu il inum isym (symbolsToUse c).data cur) :
    al ∈ activeCharSets iu il inum isym c := by
  simp only [categoriesToEnsure, activeCharSets, List.mem_append] at h ⊢
  rcases h with (((h | h) | h) | h) <;> split at h <;>
    simp only [List.mem_singleton, List.not_mem_nil] at h <;> rename_i hc
  · exact Or.inl (Or.inl (Or.inl (by rw [if_pos ⟨hc.1, hc.2.2⟩, h]; exact List.mem_singleton.2 rfl)))
  · exact Or.inl (Or.inl (Or.inr (by rw [if_pos ⟨hc.1, hc.2.2⟩, h]; exact List.mem_singleton.2 rfl)))
  · exact Or.inl (Or.inr (by rw [if_pos ⟨hc.1, hc.2.2⟩, h]; exact List.mem_singleton.2 rfl))
  · exact Or.inr (by
      rw [if_pos ⟨hc.1, symbolsToUse_ne_empty c⟩, h]
      exact List.mem_singleton.2 rfl)

/-- Structure theorem for a successful run: for a positive length and a
non-empty active set, Pass 1 succeeds with cursor `2 * n`, the whole engine
returns a password of length `n` whose characters all come from active
alphabets, and — when the recorded injection positions are pairwise
distinct — the final password contains a character of every alphabet that
was missing after Pass 1. -/
theorem generate_run (a b : String) (n : Nat) (iu il inum isym : Bool) (cs : String)
    (v : Bool) (hA : activeCharSets iu il inum isym cs ≠ []) (hn : 0 < n) :
    ∃ (b1 b2 : List Char) (ps : List Nat),
      pass1Run (activeCharSets iu il inum isym cs)
          (extendedHashInit (sha256Hex (a ++ b)).data
            (n * 2 + (activeCharSets iu il inum isym cs).length * 2)) n = .ok (b1, 2 * n) ∧
      generateWithTrace a b n iu il inum isym cs v = .ok (String.mk b2, ps) ∧
      generate_monkey_password a b n iu il inum isym cs v = .ok (String.mk b2) ∧
      b1.length = n ∧ b2.length = n ∧
      (∀ c ∈ b1, ∃ al, al ∈ activeCharSets iu il inum isym cs ∧ c ∈ al) ∧
      (∀ c ∈ b2, ∃ al, al ∈ activeCharSets iu il inum isym cs ∧ c ∈ al) ∧
      (ps.Nodup →
        ∀ al ∈ categoriesToEnsure iu il inum isym (symbolsToUse cs).data b1,
          ∃ c, c ∈ b2 ∧ c ∈ al) := by
  set A := activeCharSets iu il inum isym cs with hAdef
  set E := extendedHashInit (sha256Hex (a ++ b)).data (n * 2 + A.length * 2) with hEdef
  have hElen : E.length = n * 2 + A.length * 2 + 10 :=
    extendedHashInit_length (sha256Hex_data_length _) _
  have hAne : ∀ x ∈ A, x ≠ [] := fun x hx => mem_activeCharSets_ne_nil hx
  obtain ⟨b1, hp1, hb1len, hb1chars⟩ := pass1Run_ok A E n hA hAne (by omega)
  set cats := categoriesToEnsure iu il inum isym (symbolsToUse cs).data b1 with hcatsdef
  have hcatsle : cats.length ≤ A.length := categoriesToEnsure_length_le iu il inum isym cs b1
  obtain ⟨b2, ps, hp2, hb2len, hpslen, hpsran, huntouched, hcontain, hdiv⟩ :=
    pass2_fold_spec E n hn cats b1 (2 * n) []
      (fun x hx => mem_categoriesToEnsure_ne_nil hx) hb1len (by omega)
  have hp2run : pass2Run E n cats b1 (2 * n) = .ok (b2, 2 * n + 2 * cats.length, ps) := hp2
  have hrun : generateWithTrace a b n iu il inum isym cs v = .ok (String.mk b2, ps) := by
    have hstep1 : generateWithTrace a b n iu il inum isym cs v =
        (pass1Run A E n).bind fun r1 =>
          (pass2Run E n
            (categoriesToEnsure iu il inum isym (symbolsToUse cs).data r1.1) r1.1 r1.2).bind
            fun r2 => .ok (String.mk r2.1, r2.2.2) := by
      simp only [generateWithTrace]
      rw [if_neg hA]
    rw [hstep1, hp1, bindE_ok]
    show (pass2Run E n cats b1 (2 * n)).bind
      (fun r2 => Except.ok (String.mk r2.1, r2.2.2)) = .ok (String.mk b2, ps)
    rw [hp2run, bindE_ok]
  have hmap : generate_monkey_password a b n iu il inum isym cs v = .ok (String.mk b2) := by
    unfold generate_monkey_password
    rw [hrun, mapE_ok]
  refine ⟨b1, b2, ps, hp1, hrun, hmap, hb1len, hb2len, hb1chars, ?_, hdiv⟩
  intro c hc
  rcases hcontain c hc with hc | ⟨x, hx, hcx⟩
  · exact hb1chars c hc
  · exact ⟨x, mem_categoriesToEnsure_mem_active hx, hcx⟩

/-! ## Error analysis -/

theorem pass1Step_ne_noActive (activeSets : List (List Char)) (ext : List Char)
    (st : List Char × Nat) (i : Nat) :
    pass1Step activeSets ext st i ≠ .error .noActive := by
  simp only [pass1Step]
  split
  · simp
  · split
    · simp
    · split
      · simp
      · split <;> simp

theorem pass2Step_ne_noActive (ext : List Char) (n : Nat)
    (st : List Char × Nat × List Nat) (cs : List Char) :
    pass2Step ext n st cs ≠ .error .noActive := by
  simp only [pass2Step]
  split
  · simp
  · split
    · simp
    · split
      · simp
      · split <;> simp

theorem foldlM_ne_noActive {α σ : Type} (f : σ → α → Except GenError σ)
    (hf : ∀ s x, f s x ≠ .error .noActive) :
    ∀ (l : List α) (s : σ), l.foldlM f s ≠ .error .noActive := by
  intro l
  induction l with
  | nil => intro s h; rw [List.foldlM_nil, pure_eq_ok] at h; cases h
  | cons x xs ih =>
    intro s
    rw [List.foldlM_cons]
    cases hfx : f s x with
    | error e =>
      rw [error_bind]
      intro h
      injection h with h
      exact hf s x (by rw [hfx, h])
    | ok s2 => rw [ok_bind]; exact ih s2

theorem bind_ne_noActive {α β : Type} {x : Except GenError α} {f : α → Except GenError β}
    (hx : x ≠ .error .noActive) (hf : ∀ a, f a ≠ .error .noActive) :
    x.bind f ≠ .error .noActive := by
  cases x with
  | error e =>
    rw [bindE_error]
    intro h
    injection h with h
    exact hx (by rw [h])
  | ok a => rw [bindE_ok]; exact hf a

/-- With a non-empty active set, the engine never reports the
no-active-alphabet error: the only remaining failures are the
`AttributeError` and `ZeroDivisionError` paths. -/
theorem generateWithTrace_ne_noActive (a b : String) (n : Nat)
    (iu il inum isym : Bool) (cs : String) (v : Bool)
    (hA : activeCharSets iu il inum isym cs ≠ []) :
    generateWithTrace a b n iu il inum isym cs v ≠ .error .noActive := by
  simp only [generateWithTrace]
  rw [if_neg hA]
  refine bind_ne_noActive ?_ fun r1 => bind_ne_noActive ?_ fun r2 => by simp
  · exact foldlM_ne_noActive _ (pass1Step_ne_noActive _ _) _ _
  · exact foldlM_ne_noActive _ (pass2Step_ne_noActive _ _) _ _

theorem data_ne_nil_iff (s : String) : s.data ≠ [] ↔ s ≠ "" := by
  constructor
  · intro h hs
    rw [hs] at h
    exact h rfl
  · exact data_ne_nil

/-- The resolved active set is empty exactly when all four classes are
disabled: the three base alphabets are non-empty constants, and an empty
custom symbol set falls back to the non-empty default. -/
theorem activeCharSets_eq_nil_iff (iu il inum isym : Bool) (cs : String) :
    activeCharSets iu il inum isym cs = [] ↔
      iu = false ∧ il = false ∧ inum = false ∧ isym = false := by
  have hU : UPPERCASE_BASE ≠ "" := by decide
  have hL : LOWERCASE_BASE ≠ "" := by decide
  have hN : NUMBERS_BASE ≠ "" := by decide
  cases iu <;> cases il <;> cases inum <;> cases isym <;>
    simp [activeCharSets, symbolsToUse_ne_empty, hU, hL, hN]

/-- On an empty Pass-1 buffer (length 0) every enabled class is found
missing, so `categories_to_ensure` is the whole active list. -/
theorem categoriesToEnsure_nil (iu il inum isym : Bool) (cs : String) :
    categoriesToEnsure iu il inum isym (symbolsToUse cs).data [] =
      activeCharSets iu il inum isym cs := by
  simp only [categoriesToEnsure, activeCharSets, List.any_nil, Bool.false_eq_true,
    not_false_iff, true_and, data_ne_nil_iff]

/-- With a zero desired length, any Pass-2 injection step on a non-empty
alphabet raises `ZeroDivisionError` at `pos_val % desired_length`. -/
theorem pass2Step_zeroDiv (ext : List Char) (buf : List Char) (idx : Nat)
    (ps : List Nat) (cs : List Char) (hcs : cs ≠ []) (h : idx + 1 < ext.length) :
    pass2Step ext 0 (buf, idx, ps) cs = .error .zeroDiv := by
  simp only [pass2Step]
  rw [if_neg (by simp [hcs]), if_neg (by omega), if_pos trivial]

/-! ## Claims -/

/-- Claim C3: for every fixed argument tuple, two calls to
`generate_monkey_password` return byte-identical results; the embedding is
a pure function of its arguments, so determinism holds by construction. -/
theorem C3_deterministic (a b : String) (n : Nat) (iu il inum isym : Bool)
    (cs : String) (v : Bool) :
    generate_monkey_password a b n iu il inum isym cs v =
      generate_monkey_password a b n iu il inum isym cs v := rfl

/-- Claim C8: the verbose flag only drives trace printing in the source and
never alters the computed password: the result with `verbose = true` equals
the result with `verbose = false`. -/
theorem C8_verbose_invariant (a b : String) (n : Nat) (iu il inum isym : Bool)
    (cs : String) :
    generate_monkey_password a b n iu il inum isym cs true =
      generate_monkey_password a b n iu il inum isym cs false := rfl

/-- Claim C6: the combined input is `simple_password ++ unique_key` with no
separator, so any two secret pairs with the same concatenation produce the
same password under the same policy. -/
theorem C6_concat_boundary (a b c d : String) (n : Nat) (iu il inum isym : Bool)
    (cs : String) (v : Bool) (h : a ++ b = c ++ d) :
    generate_monkey_password a b n iu il inum isym cs v =
      generate_monkey_password c d n iu il inum isym cs v := by
  simp only [generate_monkey_password, generateWithTrace]
  rw [h]

/-- Witness for C6 at the spec's own example: moving characters across the
secret boundary leaves the password unchanged. -/
theorem C6_concat_boundary_witness :
    generate_monkey_password "abc" "def" 16 true true true true "" false =
      generate_monkey_password "ab" "cdef" 16 true true true true "" false :=
  C6_concat_boundary "abc" "def" "ab" "cdef" 16 true true true true "" false (by decide)

set_option linter.unusedVariables false in
/-- Claim C7: the initial keystream is the truncation of whole repetitions
of the 64-character base hash to exactly `min_hash_needed + 10` characters;
the repetition count `min_hash_needed / 64 + 2` always over-provisions (the
claim's positivity and non-emptiness hypotheses are not even needed). -/
theorem C7_keystream_length (a b : String) (n : Nat) (iu il inum isym : Bool)
    (cs : String) (hn : 0 < n) (hA : activeCharSets iu il inum isym cs ≠ []) :
    (extendedHashInit (sha256Hex (a ++ b)).data
        (n * 2 + (activeCharSets iu il inum isym cs).length * 2)).length =
      (n * 2 + (activeCharSets iu il inum isym cs).length * 2) + 10 ∧
    extendedHashInit (sha256Hex (a ++ b)).data
        (n * 2 + (activeCharSets iu il inum isym cs).length * 2) <+:
      (List.replicate
        ((n * 2 + (activeCharSets iu il inum isym cs).length * 2) /
          (sha256Hex (a ++ b)).data.length + 2)
        (sha256Hex (a ++ b)).data).flatten := by
  refine ⟨extendedHashInit_length (sha256Hex_data_length _) _, ?_⟩
  exact ⟨_, List.take_append_drop _ _⟩

set_option maxRecDepth 400000 in
/-- Witness for C7 at a concrete input: four active classes, length 16, so
the keystream has `16*2 + 4*2 + 10 = 50` characters. -/
theorem C7_keystream_length_witness :
    (extendedHashInit (sha256Hex ("u" ++ "v")).data
        (16 * 2 + (activeCharSets true true true true "").length * 2)).length =
      (16 * 2 + (activeCharSets true true true true "").length * 2) + 10 ∧
    extendedHashInit (sha256Hex ("u" ++ "v")).data
        (16 * 2 + (activeCharSets true true true true "").length * 2) <+:
      (List.replicate
        ((16 * 2 + (activeCharSets true true true true "").length * 2) /
          (sha256Hex ("u" ++ "v")).data.length + 2)
        (sha256Hex ("u" ++ "v")).data).flatten :=
  C7_keystream_length "u" "v" 16 true true true true "" (by decide) (by decide)

/-- Claim C2 (amended): the engine reports the no-active-alphabet error
exactly when the resolved active set is empty, which happens exactly when
all four classes are disabled.  An empty custom symbol override does not
empty the Symbol alphabet: it falls back to the default symbol set. -/
theorem C2_noActive_iff (a b : String) (n : Nat) (iu il inum isym : Bool)
    (cs : String) (v : Bool) :
    generate_monkey_password a b n iu il inum isym cs v = .error .noActive ↔
      iu = false ∧ il = false ∧ inum = false ∧ isym = false := by
  constructor
  · intro h
    rw [← activeCharSets_eq_nil_iff iu il inum isym cs]
    by_contra hA
    have hW := generateWithTrace_ne_noActive a b n iu il inum isym cs v hA
    unfold generate_monkey_password at h
    cases hWeq : generateWithTrace a b n iu il inum isym cs v with
    | error e =>
      rw [hWeq, mapE_error] at h
      injection h with h2
      exact hW (by rw [hWeq, h2])
    | ok r =>
      rw [hWeq, mapE_ok] at h
      exact Except.noConfusion h
  · rintro ⟨h1, h2, h3, h4⟩
    subst h1; subst h2; subst h3; subst h4
    rfl

set_option maxRecDepth 400000 in
/-- Counterexample to C2 as stated: enabling only Symbol with an empty
custom override does not raise the no-active-alphabet error — the empty
override falls back to the default symbols and a password is returned. -/
theorem C2_counterexample :
    generate_monkey_password "a" "b" 4 false false false true "" false =
      .ok "-[!+" := by decide

set_option maxRecDepth 400000 in
/-- Claim C10: with desired length 0 and a non-empty active set, Pass 1 is
skipped, every enabled class is found missing, and the first diversity
injection raises `ZeroDivisionError` at `pos_val % desired_length`; no
password and no no-active-alphabet error is produced. -/
theorem C10_length_zero_zeroDiv (a b : String) (iu il inum isym : Bool) (cs : String)
    (v : Bool) (hA : activeCharSets iu il inum isym cs ≠ []) :
    generate_monkey_password a b 0 iu il inum isym cs v = .error .zeroDiv := by
  set A := activeCharSets iu il inum isym cs with hAdef
  set E := extendedHashInit (sha256Hex (a ++ b)).data (0 * 2 + A.length * 2) with hEdef
  have hElen : E.length = 0 * 2 + A.length * 2 + 10 :=
    extendedHashInit_length (sha256Hex_data_length _) _
  have hstep1 : generateWithTrace a b 0 iu il inum isym cs v =
      (pass1Run A E 0).bind fun r1 =>
        (pass2Run E 0
          (categoriesToEnsure iu il inum isym (symbolsToUse cs).data r1.1) r1.1 r1.2).bind
          fun r2 => .ok (String.mk r2.1, r2.2.2) := by
    simp only [generateWithTrace]
    rw [if_neg hA]
  have hp1 : pass1Run A E 0 = .ok ([], 0) := rfl
  have hcats : categoriesToEnsure iu il inum isym (symbolsToUse cs).data [] = A :=
    categoriesToEnsure_nil iu il inum isym cs
  obtain ⟨hd, tl, hAeq⟩ : ∃ hd tl, A = hd :: tl := by
    cases hAval : A with
    | nil => exact absurd hAval hA
    | cons hd tl => exact ⟨hd, tl, rfl⟩
  have hhd : hd ≠ [] := mem_activeCharSets_ne_nil (hAeq ▸ List.mem_cons_self hd tl)
  have hp2 : pass2Run E 0 A [] 0 = .error .zeroDiv := by
    rw [hAeq]
    show (hd :: tl).foldlM (pass2Step E 0) ([], 0, []) = .error .zeroDiv
    rw [List.foldlM_cons, pass2Step_zeroDiv E [] 0 [] hd hhd (by omega), error_bind]
  unfold generate_monkey_password
  rw [hstep1, hp1, bindE_ok]
  show Except.map Prod.fst
      ((pass2Run E 0
        (categoriesToEnsure iu il inum isym (symbolsToUse cs).data []) [] 0).bind
        fun r2 => Except.ok (String.mk r2.1, r2.2.2)) = .error .zeroDiv
  rw [hcats, hp2, bindE_error, mapE_error]

set_option maxRecDepth 400000 in
/-- Witness for C10: all four classes enabled, length 0. -/
theorem C10_length_zero_zeroDiv_witness :
    generate_monkey_password "a" "b" 0 true true true true "" false =
      .error .zeroDiv :=
  C10_length_zero_zeroDiv "a" "b" true true true true "" false (by decide)

/-- Claim C4: for a positive length and a non-empty active set, the engine
returns a password of exactly the requested length. -/
theorem C4_length_exact (a b : String) (n : Nat) (iu il inum isym : Bool)
    (cs : String) (v : Bool) (hn : 0 < n)
    (hA : activeCharSets iu il inum isym cs ≠ []) :
    ∃ s : String, generate_monkey_password a b n iu il inum isym cs v = .ok s ∧
      s.length = n := by
  obtain ⟨b1, b2, ps, _, _, hmap, _, hb2len, _⟩ :=
    generate_run a b n iu il inum isym cs v hA hn
  exact ⟨String.mk b2, hmap, hb2len⟩

set_option maxRecDepth 400000 in
/-- Witness for C4: length 16 with all classes enabled. -/
theorem C4_length_exact_witness :
    ∃ s : String, generate_monkey_password "a" "b" 16 true true true true "" false =
      .ok s ∧ s.length = 16 :=
  C4_length_exact "a" "b" 16 true true true true "" false (by decide) (by decide)

/-- Claim C5: for a positive length and a non-empty active set, every
character of the returned password belongs to some active alphabet; hence
no character outside the union of active alphabets (in particular none from
a disabled class's alphabet outside that union) ever appears. -/
theorem C5_alphabet_containment (a b : String) (n : Nat) (iu il inum isym : Bool)
    (cs : String) (v : Bool) (hn : 0 < n)
    (hA : activeCharSets iu il inum isym cs ≠ []) :
    ∃ s : String, generate_monkey_password a b n iu il inum isym cs v = .ok s ∧
      ∀ c ∈ s.data, ∃ al, al ∈ activeCharSets iu il inum isym cs ∧ c ∈ al := by
  obtain ⟨b1, b2, ps, _, _, hmap, _, _, _, hb2chars, _⟩ :=
    generate_run a b n iu il inum isym cs v hA hn
  exact ⟨String.mk b2, hmap, hb2chars⟩

set_option maxRecDepth 400000 in
/-- Witness for C5: length 12 with Upper and Digit disabled. -/
theorem C5_alphabet_containment_witness :
    ∃ s : String,
      generate_monkey_password "pass" "word" 12 false true false true "" false =
        .ok s ∧
      ∀ c ∈ s.data, ∃ al, al ∈ activeCharSets false true false true "" ∧ c ∈ al :=
  C5_alphabet_containment "pass" "word" 12 false true false true "" false
    (by decide) (by decide)

/-- Claim C9: for a positive length and a non-empty active set, the shared
cursor never comes within one character of the end of the initial keystream,
so the run completes without reaching any dynamic-extension branch and the
engine never raises the `AttributeError` those branches would produce. -/
theorem C9_no_dynamic_extension (a b : String) (n : Nat) (iu il inum isym : Bool)
    (cs : String) (v : Bool) (hn : 0 < n)
    (hA : activeCharSets iu il inum isym cs ≠ []) :
    (∃ out, generateWithTrace a b n iu il inum isym cs v = .ok out) ∧
    generate_monkey_password a b n iu il inum isym cs v ≠ .error .attrError := by
  obtain ⟨b1, b2, ps, _, hrun, hmap, _⟩ :=
    generate_run a b n iu il inum isym cs v hA hn
  refine ⟨⟨(String.mk b2, ps), hrun⟩, ?_⟩
  rw [hmap]
  exact fun h => Except.noConfusion h

set_option maxRecDepth 400000 in
/-- Witness for C9: length 5 with all classes enabled. -/
theorem C9_no_dynamic_extension_witness :
    (∃ out, generateWithTrace "x" "y" 5 true true true true "" false = .ok out) ∧
    generate_monkey_password "x" "y" 5 true true true true "" false ≠
      .error .attrError :=
  C9_no_dynamic_extension "x" "y" 5 true true true true "" false (by decide) (by decide)

/-- Claim C1 (amended): if the length is at least the number of active
classes and no two Pass-2 injections target the same buffer position, then
every active class that was missing after Pass 1 appears in the final
password.  A class already present after Pass 1 can still lose its only
representatives to an injection and end up absent, so the guarantee cannot
be strengthened to all active classes. -/
theorem C1_diversity_missing_after_pass1 (a b : String) (n : Nat)
    (iu il inum isym : Bool) (cs : String) (v : Bool)
    (hA : activeCharSets iu il inum isym cs ≠ [])
    (hk : (activeCharSets iu il inum isym cs).length ≤ n) :
    ∃ (b1 : List Char) (s : String) (ps : List Nat),
      pass1Run (activeCharSets iu il inum isym cs)
          (extendedHashInit (sha256Hex (a ++ b)).data
            (n * 2 + (activeCharSets iu il inum isym cs).length * 2)) n =
        .ok (b1, 2 * n) ∧
      generateWithTrace a b n iu il inum isym cs v = .ok (s, ps) ∧
      generate_monkey_password a b n iu il inum isym cs v = .ok s ∧
      (ps.Nodup →
        ∀ al ∈ categoriesToEnsure iu il inum isym (symbolsToUse cs).data b1,
          ∃ c, c ∈ s.data ∧ c ∈ al) := by
  have hn : 0 < n := Nat.lt_of_lt_of_le (List.length_pos.2 hA) hk
  obtain ⟨b1, b2, ps, hp1, hrun, hmap, _, _, _, _, hdiv⟩ :=
    generate_run a b n iu il inum isym cs v hA hn
  exact ⟨b1, String.mk b2, ps, hp1, hrun, hmap, fun hnd al hal => hdiv hnd al hal⟩

set_option maxRecDepth 400000 in
/-- Witness for the amended C1: at this input the Lower class is missing
after Pass 1 and its injected character survives in the output. -/
theorem C1_diversity_missing_after_pass1_witness :
    ∃ (b1 : List Char) (s : String) (ps : List Nat),
      pass1Run (activeCharSets true true true true "")
          (extendedHashInit (sha256Hex ("abc" ++ "def")).data
            (8 * 2 + (activeCharSets true true true true "").length * 2)) 8 =
        .ok (b1, 2 * 8) ∧
      generateWithTrace "abc" "def" 8 true true true true "" false = .ok (s, ps) ∧
      generate_monkey_password "abc" "def" 8 true true true true "" false = .ok s ∧
      (ps.Nodup →
        ∀ al ∈ categoriesToEnsure true true true true (symbolsToUse "").data b1,
          ∃ c, c ∈ s.data ∧ c ∈ al) :=
  C1_diversity_missing_after_pass1 "abc" "def" 8 true true true true "" false
    (by decide) (by decide)

set_option maxRecDepth 400000 in
/-- Counterexample to C1 as stated: with secrets `"secret"`/`"k2"`, length
3 and Upper, Lower, Digit active (no symbols), Pass 1 yields `"NI4"`, the
single diversity injection (trivially collision-free) overwrites the only
digit with `'h'`, and the final password `"NIh"` contains no character of
the active Digit class even though `3 ≥ 3`. -/
theorem C1_counterexample :
    (activeCharSets true true true false "").length ≤ 3 ∧
    generateWithTrace "secret" "k2" 3 true true true false "" false =
      .ok ("NIh", [2]) ∧
    List.Nodup [2] ∧
    NUMBERS_BASE.data ∈ activeCharSets true true true false "" ∧
    (∀ c ∈ ("NIh" : String).data, c ∉ NUMBERS_BASE.data) := by decide

end Monkey
